import Mathlib

/-!
Verification development for the File Find and Replace Tool (src/app.py).

Strings are modeled as lists of characters. Case-insensitive matching is
modeled by ASCII lowercasing of both sides, which is what re.IGNORECASE does
on ASCII text (the only case folding exercised by the properties below).
-/

/-- Case folding used for matching: the identity when case-sensitive, ASCII
lowercasing otherwise (model of how re.IGNORECASE compares characters). -/
def foldCase (caseSensitive : Bool) (c : Char) : Char :=
  if caseSensitive then c else c.toLower

/-- Try to strip pat from the front of text, comparing characters through f.
Returns the remaining text when pat matches at the front. -/
def dropFold (f : Char → Char) : List Char → List Char → Option (List Char)
  | [], text => some text
  | _ :: _, [] => none
  | p :: ps, c :: cs => if f p = f c then dropFold f ps cs else none

/-- One piece of a parsed re replacement template: a literal chunk, or a
reference to group 0 (the whole match). The compiled pattern is
re.escape(find), which has no capture groups, so group 0 is the only group
a template can validly reference. -/
inductive TItem where
  | lit (s : List Char)
  | grp0
deriving DecidableEq

/-- Octal digit test for replacement-template escapes. -/
def isOct (c : Char) : Bool := c.isDigit && c.toNat ≤ 55

/-- Numeric value of a digit character. -/
def octVal (c : Char) : Nat := c.toNat - 48

/-- Decimal value of a digit string. -/
def digitsToNat (ds : List Char) : Nat :=
  ds.foldl (fun n c => n * 10 + (c.toNat - 48)) 0

/-- Split off the leading run of decimal digits. -/
def takeDigits : List Char → (List Char × List Char)
  | [] => ([], [])
  | c :: rest =>
    if c.isDigit then
      let p := takeDigits rest
      (c :: p.1, p.2)
    else ([], c :: rest)

/-- The control characters produced by the replacement-template escapes that
Python's re module recognises (its ESCAPES table). -/
def escChar (c : Char) : Option Char :=
  if c = '\\' then some '\\'
  else if c = 'a' then some (Char.ofNat 7)
  else if c = 'b' then some (Char.ofNat 8)
  else if c = 'f' then some (Char.ofNat 12)
  else if c = 'n' then some (Char.ofNat 10)
  else if c = 'r' then some (Char.ofNat 13)
  else if c = 't' then some (Char.ofNat 9)
  else if c = 'v' then some (Char.ofNat 11)
  else none

/-- Model of Python re parse_template for a pattern with zero capture groups
(the compiled pattern is re.escape(find)): plain characters are literal;
backslash followed by one of a b f n r t v backslash yields the control
character; a group reference g with index 0 is the whole match and any other
group reference is an invalid-group error; octal escapes yield the coded
character (error above 255); an unknown escaped ASCII letter is a bad-escape
error; any other escaped character is kept as backslash plus the character;
a trailing lone backslash is an error. Errors are modeled as none - in the
program they surface as an re.error exception from pattern.subn. The fuel
argument strictly exceeds the template length on every call. -/
def parseTemplateGo : Nat → List Char → Option (List TItem)
  | 0, _ => none
  | _ + 1, [] => some []
  | fuel + 1, c0 :: rest0 =>
    if c0 = '\\' then
      match rest0 with
      | [] => none
      | c :: rest =>
        if c = 'g' then
          match rest with
          | '<' :: r3 =>
            match takeDigits r3 with
            | (ds, '>' :: r5) =>
              if ds = [] then none
              else if digitsToNat ds = 0 then
                (parseTemplateGo fuel r5).map (fun ts => TItem.grp0 :: ts)
              else none
            | _ => none
          | _ => none
        else if c = '0' then
          match rest with
          | d1 :: d2 :: r =>
            if isOct d1 && isOct d2 then
              (parseTemplateGo fuel r).map
                (fun ts => TItem.lit [Char.ofNat (octVal d1 * 8 + octVal d2)] :: ts)
            else if isOct d1 then
              (parseTemplateGo fuel (d2 :: r)).map
                (fun ts => TItem.lit [Char.ofNat (octVal d1)] :: ts)
            else
              (parseTemplateGo fuel rest).map (fun ts => TItem.lit [Char.ofNat 0] :: ts)
          | [d1] =>
            if isOct d1 then
              (parseTemplateGo fuel []).map
                (fun ts => TItem.lit [Char.ofNat (octVal d1)] :: ts)
            else
              (parseTemplateGo fuel rest).map (fun ts => TItem.lit [Char.ofNat 0] :: ts)
          | [] => (parseTemplateGo fuel []).map (fun ts => TItem.lit [Char.ofNat 0] :: ts)
        else if c.isDigit then
          match rest with
          | d2 :: d3 :: r2 =>
            if isOct c && d2.isDigit && isOct d2 && isOct d3 &&
                decide (octVal c * 64 + octVal d2 * 8 + octVal d3 ≤ 255) then
              (parseTemplateGo fuel r2).map
                (fun ts =>
                  TItem.lit [Char.ofNat (octVal c * 64 + octVal d2 * 8 + octVal d3)] :: ts)
            else none
          | _ => none
        else
          match escChar c with
          | some e => (parseTemplateGo fuel rest).map (fun ts => TItem.lit [e] :: ts)
          | none =>
            if c.isAlpha then none
            else (parseTemplateGo fuel rest).map (fun ts => TItem.lit ['\\', c] :: ts)
    else
      (parseTemplateGo fuel rest0).map (fun ts => TItem.lit [c0] :: ts)

/-- Parse a replacement template, model of re parse_template. -/
def parseTemplate (repl : List Char) : Option (List TItem) :=
  parseTemplateGo (repl.length + 1) repl

/-- Expand a parsed template at one match whose matched span (group 0) is
matched. -/
def expandT (matched : List Char) (items : List TItem) : List Char :=
  items.foldr
    (fun it acc =>
      (match it with
       | TItem.lit s => s
       | TItem.grp0 => matched) ++ acc) []

/-- Model of pattern.subn(template, text) for the literal pattern
re.escape(find), with characters compared through f: scan text left to
right, rewrite leftmost non-overlapping matches through the template, and
count the substitutions. The fuel argument strictly exceeds the length of
the text on every call. -/
def subnGo (f : Char → Char) (find : List Char) (items : List TItem) :
    Nat → List Char → List Char × Nat
  | 0, _ => ([], 0)
  | _ + 1, [] => if find.isEmpty then (expandT [] items, 1) else ([], 0)
  | fuel + 1, c :: rest =>
    match dropFold f find (c :: rest) with
    | some rem =>
      if find.isEmpty then
        let p := subnGo f find items fuel rest
        (expandT [] items ++ c :: p.1, p.2 + 1)
      else
        let p := subnGo f find items fuel rem
        (expandT (List.take find.length (c :: rest)) items ++ p.1, p.2 + 1)
    | none =>
      let p := subnGo f find items fuel rest
      (c :: p.1, p.2)

/-- pattern.subn for a parsed template. -/
def subnT (f : Char → Char) (find : List Char) (items : List TItem)
    (text : List Char) : List Char × Nat :=
  subnGo f find items (text.length + 1) text

/-- Model of replace_text (src/app.py line 29): compile re.escape(find) with
or without re.IGNORECASE and run pattern.subn(replace, text). The find term
is matched as exact text; the replace term is a regex replacement template.
A template error (an exception in the program) is modeled as none. -/
def replace_text (text find repl : List Char) (cs : Bool) :
    Option (List Char × Nat) :=
  (parseTemplate repl).map (fun items => subnT (foldCase cs) find items text)

/-- Stated from the spec (sections 4.1 and 8): the number of non-overlapping
leftmost-first occurrences of find in text under case folding f, for a
non-empty find term. -/
def numOccGo (f : Char → Char) (find : List Char) : Nat → List Char → Nat
  | 0, _ => 0
  | _ + 1, [] => 0
  | fuel + 1, c :: rest =>
    match dropFold f find (c :: rest) with
    | some rem => numOccGo f find fuel rem + 1
    | none => numOccGo f find fuel rest

/-- Spec-words occurrence counter under the configured case sensitivity. -/
def numOccurrences (cs : Bool) (find text : List Char) : Nat :=
  numOccGo (foldCase cs) find (text.length + 1) text

/-- Stated from the spec (section 4.1): the global literal-substring
substitute - every non-overlapping leftmost-first occurrence of find is
replaced by repl, both treated as exact text. -/
def specSubGo (f : Char → Char) (find repl : List Char) : Nat → List Char → List Char
  | 0, _ => []
  | _ + 1, [] => []
  | fuel + 1, c :: rest =>
    match dropFold f find (c :: rest) with
    | some rem => repl ++ specSubGo f find repl fuel rem
    | none => c :: specSubGo f find repl fuel rest

/-- Spec-words global substitute under the configured case sensitivity. -/
def specSubstitute (cs : Bool) (find repl text : List Char) : List Char :=
  specSubGo (foldCase cs) find repl (text.length + 1) text

/-- A template made only of single-character literal chunks. -/
def litItems (repl : List Char) : List TItem := repl.map (fun c => TItem.lit [c])

theorem dropFold_length (f : Char → Char) :
    ∀ (p t r : List Char), dropFold f p t = some r → t.length = p.length + r.length
  | [], t, r, h => by
    simp only [dropFold, Option.some.injEq] at h
    simp [h]
  | _ :: _, [], _, h => by simp [dropFold] at h
  | p :: ps, c :: cs, r, h => by
    rw [dropFold] at h
    split at h
    · have := dropFold_length f ps cs r h
      simp only [List.length_cons, this]
      omega
    · exact absurd h (by simp)

theorem dropFold_id : ∀ (p t r : List Char),
    dropFold (foldCase true) p t = some r → t = p ++ r
  | [], t, r, h => by
    simp only [dropFold, Option.some.injEq] at h
    simp [h]
  | _ :: _, [], _, h => by simp [dropFold] at h
  | p :: ps, c :: cs, r, h => by
    rw [dropFold] at h
    split at h
    · rename_i hpc
      simp only [foldCase, if_true] at hpc
      have := dropFold_id ps cs r h
      simp [hpc, this]
    · exact absurd h (by simp)

theorem expandT_lit (m : List Char) : ∀ repl : List Char,
    expandT m (litItems repl) = repl
  | [] => rfl
  | c :: rest => by
    have ih := expandT_lit m rest
    simp only [litItems, List.map_cons, expandT, List.foldr_cons] at ih ⊢
    simp [ih]

theorem parseTemplateGo_noBS :
    ∀ (fuel : Nat) (repl : List Char), repl.length < fuel → '\\' ∉ repl →
      parseTemplateGo fuel repl = some (litItems repl)
  | 0, _, h, _ => absurd h (by omega)
  | _ + 1, [], _, _ => rfl
  | fuel + 1, c0 :: rest0, h, hnb => by
    have hc0 : ¬ c0 = '\\' := fun hh => hnb (by simp [hh])
    have ih := parseTemplateGo_noBS fuel rest0
      (by simpa using Nat.lt_of_succ_lt_succ h)
      (fun hm => hnb (List.mem_cons_of_mem _ hm))
    simp [parseTemplateGo, hc0, ih, litItems]

theorem parseTemplate_noBS (repl : List Char) (hnb : '\\' ∉ repl) :
    parseTemplate repl = some (litItems repl) :=
  parseTemplateGo_noBS (repl.length + 1) repl (by omega) hnb

theorem isEmpty_false_of_ne {find : List Char} (hf : find ≠ []) :
    find.isEmpty = false := by
  cases find with
  | nil => exact absurd rfl hf
  | cons a l => rfl

theorem subnGo_count (f : Char → Char) (find : List Char) (items : List TItem)
    (hf : find ≠ []) :
    ∀ (fuel : Nat) (text : List Char), text.length < fuel →
      (subnGo f find items fuel text).2 = numOccGo f find fuel text
  | 0, _, h => absurd h (by omega)
  | _ + 1, [], _ => by
    simp [subnGo, numOccGo, isEmpty_false_of_ne hf]
  | fuel + 1, c :: rest, h => by
    have hfe := isEmpty_false_of_ne hf
    have hrest : rest.length < fuel := by
      simpa using Nat.lt_of_succ_lt_succ h
    rcases hd : dropFold f find (c :: rest) with _ | rem
    · have ih := subnGo_count f find items hf fuel rest hrest
      simp [subnGo, numOccGo, hd, ih]
    · have hlen := dropFold_length f find (c :: rest) rem hd
      have hfl : find.length ≠ 0 := fun hh => hf (List.eq_nil_of_length_eq_zero hh)
      have hrem : rem.length < fuel := by
        simp only [List.length_cons] at hlen h
        omega
      have ih := subnGo_count f find items hf fuel rem hrem
      simp [subnGo, numOccGo, hd, hfe, ih]

theorem subnGo_noBS_text (f : Char → Char) (find repl : List Char) (hf : find ≠ []) :
    ∀ (fuel : Nat) (text : List Char), text.length < fuel →
      (subnGo f find (litItems repl) fuel text).1 = specSubGo f find repl fuel text
  | 0, _, h => absurd h (by omega)
  | _ + 1, [], _ => by
    simp [subnGo, specSubGo, isEmpty_false_of_ne hf]
  | fuel + 1, c :: rest, h => by
    have hfe := isEmpty_false_of_ne hf
    have hrest : rest.length < fuel := by
      simpa using Nat.lt_of_succ_lt_succ h
    rcases hd : dropFold f find (c :: rest) with _ | rem
    · have ih := subnGo_noBS_text f find repl hf fuel rest hrest
      simp [subnGo, specSubGo, hd, ih]
    · have hlen := dropFold_length f find (c :: rest) rem hd
      have hfl : find.length ≠ 0 := fun hh => hf (List.eq_nil_of_length_eq_zero hh)
      have hrem : rem.length < fuel := by
        simp only [List.length_cons] at hlen h
        omega
      have ih := subnGo_noBS_text f find repl hf fuel rem hrem
      simp [subnGo, specSubGo, hd, hfe, ih, expandT_lit]

theorem subnGo_id_text (find : List Char) (hf : find ≠ []) :
    ∀ (fuel : Nat) (text : List Char), text.length < fuel →
      (subnGo (foldCase true) find (litItems find) fuel text).1 = text
  | 0, _, h => absurd h (by omega)
  | _ + 1, [], _ => by
    simp [subnGo, isEmpty_false_of_ne hf]
  | fuel + 1, c :: rest, h => by
    have hfe := isEmpty_false_of_ne hf
    have hrest : rest.length < fuel := by
      simpa using Nat.lt_of_succ_lt_succ h
    rcases hd : dropFold (foldCase true) find (c :: rest) with _ | rem
    · have ih := subnGo_id_text find hf fuel rest hrest
      simp [subnGo, hd, ih]
    · have hlen := dropFold_length (foldCase true) find (c :: rest) rem hd
      have hfl : find.length ≠ 0 := fun hh => hf (List.eq_nil_of_length_eq_zero hh)
      have hrem : rem.length < fuel := by
        simp only [List.length_cons] at hlen h
        omega
      have ih := subnGo_id_text find hf fuel rem hrem
      have hsplit := dropFold_id find (c :: rest) rem hd
      simp [subnGo, hd, hfe, ih, expandT_lit]
      exact hsplit.symm

theorem replace_text_noBS (text find repl : List Char) (cs : Bool)
    (hf : find ≠ []) (hnb : '\\' ∉ repl) :
    replace_text text find repl cs =
      some (specSubstitute cs find repl text, numOccurrences cs find text) := by
  rw [replace_text, parseTemplate_noBS repl hnb, Option.map_some']
  rw [subnT, specSubstitute, numOccurrences]
  have h1 := subnGo_noBS_text (foldCase cs) find repl hf (text.length + 1) text
    (by omega)
  have h2 := subnGo_count (foldCase cs) find (litItems repl) hf (text.length + 1)
    text (by omega)
  simp only [Option.some.injEq, Prod.ext_iff]
  exact ⟨h1, h2⟩

/-- Claim C1, counterexample to the claim as stated. The Pattern Matcher
passes the replace term to pattern.subn unescaped, so it is interpreted as a
regex replacement template: with find a, replace the two characters
backslash n, and text a, the returned text is a newline character, not the
text with the occurrence of the find term replaced by the replace term
(which the spec-words global literal substitute produces). -/
theorem claim_C1_counterexample :
    replace_text "a".data "a".data ['\\', 'n'] true = some (['\n'], 1) ∧
    specSubstitute true "a".data ['\\', 'n'] "a".data = ['\\', 'n'] ∧
    (['\n'] : List Char) ≠ ['\\', 'n'] := by
  refine ⟨by decide, by decide, by decide⟩

/-- Claim C1, amended: for every text T, non-empty find-term F and either
case sensitivity, PROVIDED the replace term contains no backslash, the
Pattern Matcher returns the global leftmost-first non-overlapping literal
substitution of F by the replace term in T under the configured case
sensitivity, together with a count equal to the number of non-overlapping
occurrences of F in T; in general the replace term is interpreted as a
regex replacement template rather than exact text. -/
theorem claim_C1_amended (text find repl : List Char) (cs : Bool)
    (hf : find ≠ []) (hnb : '\\' ∉ repl) :
    replace_text text find repl cs =
      some (specSubstitute cs find repl text, numOccurrences cs find text) :=
  replace_text_noBS text find repl cs hf hnb

theorem claim_C1_witness :
    replace_text "Hello hello world".data "hello".data "hi".data false =
      some (specSubstitute false "hello".data "hi".data "Hello hello world".data,
        numOccurrences false "hello".data "Hello hello world".data) :=
  claim_C1_amended "Hello hello world".data "hello".data "hi".data false
    (by decide) (by decide)

/-- Claim C3, counterexample to the claim as stated. Identity replacement is
not always invisible: case-insensitively replacing apple by apple in the
text Apple rewrites the matched span to the exact spelling of the find
term, changing the text; and even case-sensitively, a find term containing
a backslash is rewritten through template expansion (backslash n becomes a
newline). -/
theorem claim_C3_counterexample :
    (replace_text "Apple".data "apple".data "apple".data false =
        some ("apple".data, 1) ∧
      "apple".data ≠ "Apple".data) ∧
    (replace_text ['\\', 'n'] ['\\', 'n'] ['\\', 'n'] true = some (['\n'], 1) ∧
      (['\n'] : List Char) ≠ ['\\', 'n']) := by
  refine ⟨⟨by decide, by decide⟩, ⟨by decide, by decide⟩⟩

/-- Claim C3, amended: for every text T and non-empty find-term F containing
no backslash, identity replacement (replace = F) reports count equal to the
number of occurrences of F in T under the configured case sensitivity in
both modes; the returned text equals T in case-sensitive mode, while in
case-insensitive mode each matched span is rewritten to the exact spelling
of F, so the text is only guaranteed to be the global substitute of F by
itself. -/
theorem claim_C3_amended (text find : List Char) (hf : find ≠ [])
    (hnb : '\\' ∉ find) :
    replace_text text find find true =
      some (text, numOccurrences true find text) ∧
    replace_text text find find false =
      some (specSubstitute false find find text, numOccurrences false find text) := by
  constructor
  · rw [replace_text, parseTemplate_noBS find hnb, Option.map_some']
    rw [subnT, numOccurrences]
    have h1 := subnGo_id_text find hf (text.length + 1) text (by omega)
    have h2 := subnGo_count (foldCase true) find (litItems find) hf
      (text.length + 1) text (by omega)
    simp only [Option.some.injEq, Prod.ext_iff]
    exact ⟨h1, h2⟩
  · exact replace_text_noBS text find find false hf hnb

theorem claim_C3_witness :
    replace_text "cat Cat cat".data "cat".data "cat".data true =
      some ("cat Cat cat".data,
        numOccurrences true "cat".data "cat Cat cat".data) ∧
    replace_text "cat Cat cat".data "cat".data "cat".data false =
      some (specSubstitute false "cat".data "cat".data "cat Cat cat".data,
        numOccurrences false "cat".data "cat Cat cat".data) :=
  claim_C3_amended "cat Cat cat".data "cat".data (by decide) (by decide)

example : replace_text "hello world hello".data "hello".data "hi".data true =
    some ("hi world hi".data, 2) := by decide
example : replace_text "Apple apple".data "apple".data "X".data false =
    some ("X X".data, 2) := by decide
example : replace_text "Apple apple".data "apple".data "X".data true =
    some ("Apple X".data, 1) := by decide
example : replace_text "aaa".data "aa".data "b".data true =
    some ("ba".data, 1) := by decide
example : replace_text "a".data "a".data ['\\', 'n'] true =
    some (['\n'], 1) := by decide
example : replace_text "a".data "a".data ['\\', '1'] true = none := by decide
example : replace_text "ab".data "b".data "x".data true =
    some ("ax".data, 1) := by decide
example : numOccurrences false "ab".data "ABab".data = 2 := by decide
example : specSubstitute false "ab".data "z".data "ABab".data = "zz".data := by decide

/-- A pandas cell in a textual (object dtype) column: a string, or the
missing value NaN. -/
inductive Cell where
  | str (s : List Char)
  | nan
deriving DecidableEq

/-- Model of astype(str) and of the str() coercion inside the cell
comprehension of replace_in_csv: the missing value prints as the three
letters nan, a string prints as itself. -/
def cellToStr : Cell → List Char
  | Cell.str s => s
  | Cell.nan => "nan".data

/-- A DataFrame column as replace_in_csv sees it: its header name, whether
pandas inferred the object (string-like) dtype for it, and its cells. A
read_csv column with no rows always gets the object dtype. -/
structure Column where
  name : List Char
  isObject : Bool
  cells : List Cell
deriving DecidableEq

/-- A parsed CSV file: the DataFrame returned by pd.read_csv. -/
structure Table where
  cols : List Column
deriving DecidableEq

/-- Run replace_text over every string of a list, failing if any call
raises. -/
def mapReplace (find repl : List Char) (cs : Bool) :
    List (List Char) → Option (List (List Char × Nat))
  | [] => some []
  | s :: rest =>
    match replace_text s find repl cs, mapReplace find repl cs rest with
    | some p, some ps => some (p :: ps)
    | _, _ => none

/-- Model of the loop body of replace_in_csv (src/app.py lines 61 to 65) for
one column: an object-dtype column is cast to strings by astype(str), every
cell is run through replace_text, and the resulting list of pairs is
unzipped by the assignment to df[col], col_count from zip(star ...). On a
column with no cells that zip() yields nothing and the two-target unpacking
raises ValueError, modeled as none. Non-object columns are left untouched
and contribute count 0. -/
def processColumn (find repl : List Char) (cs : Bool) (c : Column) :
    Option (Column × Nat) :=
  if c.isObject then
    match mapReplace find repl cs (c.cells.map cellToStr) with
    | none => none
    | some [] => none
    | some (p :: ps) =>
      some ({ c with cells := (p :: ps).map (fun q => Cell.str q.1) },
        ((p :: ps).map Prod.snd).sum)
  else some (c, 0)

/-- The column loop of replace_in_csv: columns processed left to right,
counts summed, any exception aborting the whole call. -/
def processCols (find repl : List Char) (cs : Bool) :
    List Column → Option (List Column × Nat)
  | [] => some ([], 0)
  | c :: rest =>
    match processColumn find repl cs c, processCols find repl cs rest with
    | some p, some q => some (p.1 :: q.1, p.2 + q.2)
    | _, _ => none

/-- Model of replace_in_csv (src/app.py lines 58 to 66). -/
def replace_in_csv (t : Table) (find repl : List Char) (cs : Bool) :
    Option (Table × Nat) :=
  (processCols find repl cs t.cols).map (fun p => (Table.mk p.1, p.2))

/-- The DataFrame produced by pd.read_csv on a headers-only CSV file with
content a,b followed by a newline: two named columns and no data rows;
pandas infers the object dtype for a column with no rows. -/
def emptyTable : Table :=
  Table.mk [Column.mk "a".data true [], Column.mk "b".data true []]

example : replace_in_csv
    (Table.mk [Column.mk "c".data true [Cell.str "apple".data, Cell.str "banana".data,
      Cell.str "Apple".data]]) "apple".data "REPL".data false =
    some (Table.mk [Column.mk "c".data true [Cell.str "REPL".data,
      Cell.str "banana".data, Cell.str "REPL".data]], 2) := by decide

example : replace_in_csv
    (Table.mk [Column.mk "c".data true [Cell.str "apple".data, Cell.str "banana".data,
      Cell.str "Apple".data]]) "apple".data "REPL".data true =
    some (Table.mk [Column.mk "c".data true [Cell.str "REPL".data,
      Cell.str "banana".data, Cell.str "Apple".data]], 1) := by decide

/-- Claim C4 is wrong about the code: on an empty table (headers only, no
data rows) replace_in_csv does not succeed with count 0. Every column of
such a DataFrame has the object dtype, so for the first column the code
evaluates the two-target unpacking of zip(star [replace_text(...) for cell
in df[col]]); the comprehension is empty, zip() yields nothing, and the
unpacking raises ValueError, so the file is recorded as a failure instead
of a success with count 0. -/
theorem claim_C4_code_bug (find repl : List Char) (cs : Bool) :
    replace_in_csv emptyTable find repl cs = none := rfl

theorem mapReplace_parsed (find repl : List Char) (cs : Bool)
    (items : List TItem) (hp : parseTemplate repl = some items) :
    ∀ ss : List (List Char),
      mapReplace find repl cs ss =
        some (ss.map (fun s => subnT (foldCase cs) find items s))
  | [] => rfl
  | s :: rest => by
    have ih := mapReplace_parsed find repl cs items hp rest
    simp [mapReplace, replace_text, hp, ih]

theorem processCols_object (find repl : List Char) (cs : Bool)
    (items : List TItem) (hp : parseTemplate repl = some items) :
    ∀ (colsIn colsOut : List Column) (n : Nat),
      processCols find repl cs colsIn = some (colsOut, n) →
      List.Forall₂
        (fun c c2 => c.isObject = true →
          c2.cells = c.cells.map
            (fun cell =>
              Cell.str (subnT (foldCase cs) find items (cellToStr cell)).1))
        colsIn colsOut
  | [], colsOut, n, h => by
    simp only [processCols, Option.some.injEq, Prod.mk.injEq] at h
    rw [← h.1]
    exact List.Forall₂.nil
  | c :: rest, colsOut, n, h => by
    rw [processCols] at h
    rcases hc : processColumn find repl cs c with _ | p
    · rw [hc] at h
      simp at h
    · rcases hr : processCols find repl cs rest with _ | q
      · rw [hc, hr] at h
        simp at h
      · rw [hc, hr] at h
        simp only [Option.some.injEq, Prod.mk.injEq] at h
        have ih := processCols_object find repl cs items hp rest q.1 q.2 (by rw [hr])
        rw [← h.1]
        refine List.Forall₂.cons ?_ ih
        intro hobj
        rw [processColumn, hobj, if_pos rfl,
          mapReplace_parsed find repl cs items hp] at hc
        rcases hcl : c.cells with _ | ⟨a, as⟩
        · rw [hcl] at hc
          simp at hc
        · rw [hcl] at hc
          simp only [List.map_cons, Option.some.injEq] at hc
          rw [← hc]
          simp [hcl]

/-- Claim C10: replace_in_csv coerces every cell of every object-dtype
column to its string representation (astype(str), then str(cell)) before
matching, and writes back the replacement result for every cell regardless
of its match count. In particular a missing value in a textual column comes
back as the literal string nan even when the find term does not occur in
it, so a zero-match cell can still differ between input and output. -/
theorem claim_C10 :
    (∀ (t : Table) (find repl : List Char) (cs : Bool) (items : List TItem)
      (t2 : Table) (n : Nat),
      parseTemplate repl = some items →
      replace_in_csv t find repl cs = some (t2, n) →
      List.Forall₂
        (fun c c2 => c.isObject = true →
          c2.cells = c.cells.map
            (fun cell =>
              Cell.str (subnT (foldCase cs) find items (cellToStr cell)).1))
        t.cols t2.cols) ∧
    (replace_in_csv (Table.mk [Column.mk "v".data true [Cell.nan]])
        "zz".data "w".data true =
      some (Table.mk [Column.mk "v".data true [Cell.str "nan".data]], 0) ∧
      Cell.str "nan".data ≠ Cell.nan) := by
  refine ⟨?_, by decide, by decide⟩
  intro t find repl cs items t2 n hp h
  rw [replace_in_csv] at h
  rcases hq : processCols find repl cs t.cols with _ | q
  · rw [hq] at h
    simp at h
  · rw [hq] at h
    simp only [Option.map_some', Option.some.injEq] at h
    have := processCols_object find repl cs items hp t.cols q.1 q.2 (by rw [hq])
    have ht2 : t2.cols = q.1 := by
      rw [Prod.mk.injEq] at h
      rw [← h.1]
    rw [ht2]
    exact this

theorem claim_C10_witness :
    List.Forall₂
      (fun c c2 => c.isObject = true →
        c2.cells = c.cells.map
          (fun cell =>
            Cell.str (subnT (foldCase true) "x".data [TItem.lit ['w']]
              (cellToStr cell)).1))
      [Column.mk "v".data true [Cell.str "x".data]]
      [Column.mk "v".data true [Cell.str "w".data]] :=
  claim_C10.1 (Table.mk [Column.mk "v".data true [Cell.str "x".data]])
    "x".data "w".data true [TItem.lit ['w']]
    (Table.mk [Column.mk "v".data true [Cell.str "w".data]]) 1 rfl rfl

/-- Exact (case-sensitive) prefix test on character lists. -/
def startsList : List Char → List Char → Bool
  | [], _ => true
  | _ :: _, [] => false
  | p :: ps, c :: rest => p = c && startsList ps rest

/-- Python substring containment needle in hay, case-sensitive; an empty
needle is contained in everything. -/
def containsSub (needle : List Char) : List Char → Bool
  | [] => startsList needle []
  | c :: rest => startsList needle (c :: rest) || containsSub needle rest

mutual
/-- An XML element as ElementTree represents it: tag, attribute list, the
direct text immediately inside the opening tag (or none), the tail text
between this element's closing tag and the next sibling (or none), and the
child elements. -/
inductive XmlElem : Type where
  | mk : List Char → List (List Char × List Char) → Option (List Char) →
      Option (List Char) → XmlList → XmlElem
/-- A list of sibling elements. -/
inductive XmlList : Type where
  | nil : XmlList
  | cons : XmlElem → XmlList → XmlList
end

/-- The text-rewriting step of replace_text_elem (src/app.py lines 75 to 78):
the direct text is rewritten only when it is truthy (present and non-empty)
AND contains the find term as a case-sensitive substring - the Python guard
is the expression: elem.text and find in elem.text - and that containment
test ignores the case-sensitivity flag. A template error from replace_text
propagates as an exception (none). -/
def textStep (find repl : List Char) (cs : Bool) :
    Option (List Char) → Option (Option (List Char) × Nat)
  | some t =>
    if !t.isEmpty && containsSub find t then
      match replace_text t find repl cs with
      | some p => some (some p.1, p.2)
      | none => none
    else some (some t, 0)
  | none => some (none, 0)

mutual
/-- Model of the recursive helper replace_text_elem inside replace_in_xml
(src/app.py lines 73 to 80): rewrite the element's direct text through
textStep, then visit the children depth-first, summing counts. Tail text is
never touched. -/
def replaceElem (find repl : List Char) (cs : Bool) :
    XmlElem → Option (XmlElem × Nat)
  | XmlElem.mk tag attrs text tail children =>
    match textStep find repl cs text, replaceList find repl cs children with
    | some tp, some cp =>
      some (XmlElem.mk tag attrs tp.1 tail cp.1, tp.2 + cp.2)
    | _, _ => none

def replaceList (find repl : List Char) (cs : Bool) :
    XmlList → Option (XmlList × Nat)
  | XmlList.nil => some (XmlList.nil, 0)
  | XmlList.cons e rest =>
    match replaceElem find repl cs e, replaceList find repl cs rest with
    | some p, some q => some (XmlList.cons p.1 q.1, p.2 + q.2)
    | _, _ => none
end

/-- Model of replace_in_xml (src/app.py lines 68 to 83): parse the document
into a tree and run replace_text_elem from the root, returning the modified
tree and the aggregate count. -/
def replace_in_xml (root : XmlElem) (find repl : List Char) (cs : Bool) :
    Option (XmlElem × Nat) :=
  replaceElem find repl cs root

mutual
/-- All tail texts of an element and its descendants, in document order. -/
def tailsElem : XmlElem → List (Option (List Char))
  | XmlElem.mk _ _ _ tail children => tail :: tailsList children
def tailsList : XmlList → List (Option (List Char))
  | XmlList.nil => []
  | XmlList.cons e rest => tailsElem e ++ tailsList rest
end

mutual
/-- Erase every tail text in a tree. -/
def stripTailsE : XmlElem → XmlElem
  | XmlElem.mk tag attrs text _ children =>
    XmlElem.mk tag attrs text none (stripTailsL children)
def stripTailsL : XmlList → XmlList
  | XmlList.nil => XmlList.nil
  | XmlList.cons e rest => XmlList.cons (stripTailsE e) (stripTailsL rest)
end

example : replace_in_xml
    (XmlElem.mk "a".data [] none none
      (XmlList.cons (XmlElem.mk "b".data [] (some "hello world".data) none XmlList.nil)
        (XmlList.cons (XmlElem.mk "c".data [] (some "hello".data) none XmlList.nil)
          XmlList.nil)))
    "hello".data "hi".data false =
  some (XmlElem.mk "a".data [] none none
      (XmlList.cons (XmlElem.mk "b".data [] (some "hi world".data) none XmlList.nil)
        (XmlList.cons (XmlElem.mk "c".data [] (some "hi".data) none XmlList.nil)
          XmlList.nil)), 2) := rfl

mutual
theorem tailsPresElem (find repl : List Char) (cs : Bool) :
    ∀ (e : XmlElem) (out : XmlElem × Nat),
      replaceElem find repl cs e = some out → tailsElem out.1 = tailsElem e
  | XmlElem.mk tag attrs text tail children, out, h => by
    rw [replaceElem] at h
    rcases ht : textStep find repl cs text with _ | tp
    · rw [ht] at h
      simp at h
    · rcases hc : replaceList find repl cs children with _ | cp
      · rw [ht, hc] at h
        simp at h
      · rw [ht, hc] at h
        simp only [Option.some.injEq] at h
        have ihc := tailsPresList find repl cs children cp hc
        subst h
        simp [tailsElem, ihc]

theorem tailsPresList (find repl : List Char) (cs : Bool) :
    ∀ (l : XmlList) (out : XmlList × Nat),
      replaceList find repl cs l = some out → tailsList out.1 = tailsList l
  | XmlList.nil, out, h => by
    simp only [replaceList, Option.some.injEq] at h
    subst h
    rfl
  | XmlList.cons e rest, out, h => by
    rw [replaceList] at h
    rcases he : replaceElem find repl cs e with _ | p
    · rw [he] at h
      simp at h
    · rcases hr : replaceList find repl cs rest with _ | q
      · rw [he, hr] at h
        simp at h
      · rw [he, hr] at h
        simp only [Option.some.injEq] at h
        have ih1 := tailsPresElem find repl cs e p he
        have ih2 := tailsPresList find repl cs rest q hr
        subst h
        simp [tailsList, ih1, ih2]
end

mutual
theorem stripTailsElem_comm (find repl : List Char) (cs : Bool) :
    ∀ e : XmlElem,
      replaceElem find repl cs (stripTailsE e) =
        (replaceElem find repl cs e).map (fun p => (stripTailsE p.1, p.2))
  | XmlElem.mk tag attrs text tail children => by
    have ih := stripTailsList_comm find repl cs children
    rcases ht : textStep find repl cs text with _ | tp
    · simp [stripTailsE, replaceElem, ht, ih]
    · rcases hc : replaceList find repl cs children with _ | cp
      · simp [stripTailsE, replaceElem, ht, ih, hc]
      · simp [stripTailsE, replaceElem, ht, ih, hc]

theorem stripTailsList_comm (find repl : List Char) (cs : Bool) :
    ∀ l : XmlList,
      replaceList find repl cs (stripTailsL l) =
        (replaceList find repl cs l).map (fun p => (stripTailsL p.1, p.2))
  | XmlList.nil => rfl
  | XmlList.cons e rest => by
    have ih1 := stripTailsElem_comm find repl cs e
    have ih2 := stripTailsList_comm find repl cs rest
    rcases he : replaceElem find repl cs e with _ | p
    · simp [stripTailsL, replaceList, he, ih1, ih2]
    · rcases hr : replaceList find repl cs rest with _ | q
      · simp [stripTailsL, replaceList, he, hr, ih1, ih2]
      · simp [stripTailsL, replaceList, he, hr, ih1, ih2]
end

/-- Claim C9: the XML handler rewrites only each element's direct text. Tail
text - text between a child's closing tag and the next sibling - is never
modified (every tail of the output tree equals the corresponding tail of
the input tree) and never matched (erasing all tails changes neither the
rewritten tree, up to those erased tails, nor any count, whatever the find
term occurring in them). -/
theorem claim_C9 :
    (∀ (find repl : List Char) (cs : Bool) (e : XmlElem) (out : XmlElem × Nat),
      replace_in_xml e find repl cs = some out → tailsElem out.1 = tailsElem e) ∧
    (∀ (find repl : List Char) (cs : Bool) (e : XmlElem),
      replace_in_xml (stripTailsE e) find repl cs =
        (replace_in_xml e find repl cs).map (fun p => (stripTailsE p.1, p.2))) :=
  ⟨fun find repl cs e out h => tailsPresElem find repl cs e out h,
   fun find repl cs e => stripTailsElem_comm find repl cs e⟩

theorem claim_C9_witness :
    tailsElem (XmlElem.mk "a".data [] (some "y".data) (some "x tail".data)
        XmlList.nil) =
      tailsElem (XmlElem.mk "a".data [] (some "x".data) (some "x tail".data)
        XmlList.nil) :=
  claim_C9.1 "x".data "y".data true
    (XmlElem.mk "a".data [] (some "x".data) (some "x tail".data) XmlList.nil)
    (XmlElem.mk "a".data [] (some "y".data) (some "x tail".data) XmlList.nil, 1)
    rfl

/-- Claim C2 is wrong about the code: the element gate in replace_text_elem
is the case-sensitive Python containment find in elem.text, so in
case-insensitive mode an element whose text contains the find term only in
a different case is skipped entirely. On the document with a single element
whose text is Hello, find hello, replace hi, case-insensitive, the claim
(and spec section 4.4) requires the Pattern Matcher to run and produce
count 1 with text hi, but the code returns the document unchanged with
count 0. -/
theorem claim_C2_code_bug :
    replace_in_xml
      (XmlElem.mk "a".data [] (some "Hello".data) none XmlList.nil)
      "hello".data "hi".data false =
    some (XmlElem.mk "a".data [] (some "Hello".data) none XmlList.nil, 0) ∧
    replace_text "Hello".data "hello".data "hi".data false =
      some ("hi".data, 1) :=
  ⟨rfl, by decide⟩

/-- A PDF layout block as page.get_text with the blocks option returns it:
bounding rectangle coordinates, the text run, and the block type (0 for
text, nonzero for image). -/
structure Block where
  rect : List Int
  text : List Char
  btype : Nat
deriving DecidableEq

/-- Model of the block body of replace_in_pdf_fitz (src/app.py lines 46 to
55): an image block (type not 0) is skipped without invoking the matcher;
for a text block the matcher runs, and when its count is positive the
block's rectangle is redacted and the modified text reinserted at the
rectangle's top-left corner (modeled as the block keeping its rectangle
with the new text); a zero-count text block is left untouched. -/
def processBlock (find repl : List Char) (cs : Bool) (b : Block) :
    Option (Block × Nat) :=
  if b.btype = 0 then
    match replace_text b.text find repl cs with
    | some p => some (if 0 < p.2 then { b with text := p.1 } else b, p.2)
    | none => none
  else some (b, 0)

/-- The block loop over one page, counts summed. -/
def processBlocks (find repl : List Char) (cs : Bool) :
    List Block → Option (List Block × Nat)
  | [] => some ([], 0)
  | b :: rest =>
    match processBlock find repl cs b, processBlocks find repl cs rest with
    | some p, some q => some (p.1 :: q.1, p.2 + q.2)
    | _, _ => none

/-- The page loop, counts summed over all pages. -/
def processPages (find repl : List Char) (cs : Bool) :
    List (List Block) → Option (List (List Block) × Nat)
  | [] => some ([], 0)
  | pg :: rest =>
    match processBlocks find repl cs pg, processPages find repl cs rest with
    | some p, some q => some (p.1 :: q.1, p.2 + q.2)
    | _, _ => none

/-- Model of replace_in_pdf_fitz (src/app.py lines 41 to 56): a parsed
document is the list of its pages' layout-block lists; the total count is
aggregated over all blocks of all pages. Geometric side effects of
redaction on physically overlapping regions are outside this model, which
tracks each block's own rectangle and text run. -/
def replace_in_pdf_fitz (doc : List (List Block)) (find repl : List Char)
    (cs : Bool) : Option (List (List Block) × Nat) :=
  processPages find repl cs doc

theorem processBlocks_untouched (find repl : List Char) (cs : Bool) :
    ∀ (bs out : List Block) (n : Nat),
      processBlocks find repl cs bs = some (out, n) →
      List.Forall₂ (fun b b2 =>
        (b.btype ≠ 0 → b2 = b) ∧
        (∀ t, replace_text b.text find repl cs = some (t, 0) → b2 = b)) bs out
  | [], out, n, h => by
    simp only [processBlocks, Option.some.injEq, Prod.mk.injEq] at h
    rw [← h.1]
    exact List.Forall₂.nil
  | b :: rest, out, n, h => by
    rw [processBlocks] at h
    rcases hb : processBlock find repl cs b with _ | p
    · rw [hb] at h
      simp at h
    · rcases hr : processBlocks find repl cs rest with _ | q
      · rw [hb, hr] at h
        simp at h
      · rw [hb, hr] at h
        simp only [Option.some.injEq, Prod.mk.injEq] at h
        have ih := processBlocks_untouched find repl cs rest q.1 q.2 (by rw [hr])
        rw [← h.1]
        refine List.Forall₂.cons ⟨?_, ?_⟩ ih
        · intro hbt
          rw [processBlock, if_neg hbt] at hb
          simp only [Option.some.injEq] at hb
          rw [← hb]
        · intro t ht
          by_cases hbt : b.btype = 0
          · rw [processBlock, if_pos hbt, ht] at hb
            simp at hb
            rw [← hb]
          · rw [processBlock, if_neg hbt] at hb
            simp only [Option.some.injEq] at hb
            rw [← hb]

theorem processPages_untouched (find repl : List Char) (cs : Bool) :
    ∀ (doc out : List (List Block)) (n : Nat),
      processPages find repl cs doc = some (out, n) →
      List.Forall₂ (fun pg pg2 =>
        List.Forall₂ (fun b b2 =>
          (b.btype ≠ 0 → b2 = b) ∧
          (∀ t, replace_text b.text find repl cs = some (t, 0) → b2 = b)) pg pg2)
        doc out
  | [], out, n, h => by
    simp only [processPages, Option.some.injEq, Prod.mk.injEq] at h
    rw [← h.1]
    exact List.Forall₂.nil
  | pg :: rest, out, n, h => by
    rw [processPages] at h
    rcases hp : processBlocks find repl cs pg with _ | p
    · rw [hp] at h
      simp at h
    · rcases hr : processPages find repl cs rest with _ | q
      · rw [hp, hr] at h
        simp at h
      · rw [hp, hr] at h
        simp only [Option.some.injEq, Prod.mk.injEq] at h
        have ih := processPages_untouched find repl cs rest q.1 q.2 (by rw [hr])
        rw [← h.1]
        exact List.Forall₂.cons
          (processBlocks_untouched find repl cs pg p.1 p.2 (by rw [hp])) ih

/-- Claim C8: the PDF handler never modifies a layout block whose matcher
count is 0 - such a block comes back identical, rectangle and content - and
non-text (image) blocks are never matched against or modified: on a block
of nonzero type processBlock returns the block unchanged with count 0
without invoking the matcher, whatever the find and replace terms are. -/
theorem claim_C8 :
    (∀ (find repl : List Char) (cs : Bool) (doc out : List (List Block)) (n : Nat),
      replace_in_pdf_fitz doc find repl cs = some (out, n) →
      List.Forall₂ (fun pg pg2 =>
        List.Forall₂ (fun b b2 =>
          (b.btype ≠ 0 → b2 = b) ∧
          (∀ t, replace_text b.text find repl cs = some (t, 0) → b2 = b)) pg pg2)
        doc out) ∧
    (∀ (find repl : List Char) (cs : Bool) (b : Block), b.btype ≠ 0 →
      processBlock find repl cs b = some (b, 0)) := by
  constructor
  · intro find repl cs doc out n h
    exact processPages_untouched find repl cs doc out n h
  · intro find repl cs b hbt
    rw [processBlock, if_neg hbt]

theorem claim_C8_witness :
    List.Forall₂ (fun pg pg2 =>
      List.Forall₂ (fun b b2 =>
        (b.btype ≠ 0 → b2 = b) ∧
        (∀ t, replace_text b.text "zz".data "y".data true = some (t, 0) → b2 = b))
        pg pg2)
      [[Block.mk [0, 0, 5, 5] "abc".data 0, Block.mk [1, 1, 2, 2] "i".data 1]]
      [[Block.mk [0, 0, 5, 5] "abc".data 0, Block.mk [1, 1, 2, 2] "i".data 1]] :=
  claim_C8.1 "zz".data "y".data true
    [[Block.mk [0, 0, 5, 5] "abc".data 0, Block.mk [1, 1, 2, 2] "i".data 1]]
    [[Block.mk [0, 0, 5, 5] "abc".data 0, Block.mk [1, 1, 2, 2] "i".data 1]] 0 rfl

/-- The content of an uploaded file, as the external parser for its declared
format reads it: a parsed PDF, CSV or XML document, none when the byte
stream does not parse for that format (fitz.open, pd.read_csv or ET.parse
raises), or a raw byte stream for opaque files. Only opaque files' raw
bytes are tracked by the model. -/
inductive FileData where
  | pdfData (d : Option (List (List Block)))
  | csvData (t : Option Table)
  | xmlData (x : Option XmlElem)
  | binData (bs : List Nat)

/-- An uploaded file: its declared name and its content. -/
structure UploadedFile where
  name : List Char
  content : FileData

/-- A document as save_modified_file writes it into the archive
(src/app.py lines 86 to 95). -/
inductive SavedDoc where
  | pdfOut (d : List (List Block))
  | csvOut (t : Table)
  | xmlOut (x : XmlElem)
  | rawOut (bs : List Nat)

/-- The outcome of processing one file in the batch loop. -/
inductive Outcome where
  | success (count : Nat) (saved : SavedDoc)
  | failed
  | unsupported

/-- Raw byte stream of a file's content (tracked for opaque files). -/
def rawBytes : FileData → List Nat
  | FileData.binData bs => bs
  | _ => []

/-- Split a character list at every occurrence of sep, like Python split
with no limit: the result is always non-empty and an empty input gives one
empty field. -/
def splitOnChar (sep : Char) : List Char → List (List Char)
  | [] => [[]]
  | c :: rest =>
    match splitOnChar sep rest with
    | [] => [[]]
    | h :: t => if c = sep then [] :: h :: t else (c :: h) :: t

/-- Model of ext computed as filename.split at every dot, last field,
lowercased (src/app.py line 109). -/
def extOf (name : List Char) : List Char :=
  ((splitOnChar '.' name).getLastD []).map Char.toLower

/-- Dispatch of the batch loop body (src/app.py lines 112 to 128): the
handler is chosen by the declared extension alone; a handler exception
(parse failure of the byte stream, or a matcher template error) makes the
file a failure; an xpt file is rewound and copied byte for byte with count
0 and never fails; any other extension is reported unsupported. -/
def processOneFile (find repl : List Char) (cs : Bool) (f : UploadedFile) :
    Outcome :=
  if extOf f.name = "pdf".data then
    match f.content with
    | FileData.pdfData (some d) =>
      match replace_in_pdf_fitz d find repl cs with
      | some p => Outcome.success p.2 (SavedDoc.pdfOut p.1)
      | none => Outcome.failed
    | _ => Outcome.failed
  else if extOf f.name = "csv".data then
    match f.content with
    | FileData.csvData (some t) =>
      match replace_in_csv t find repl cs with
      | some p => Outcome.success p.2 (SavedDoc.csvOut p.1)
      | none => Outcome.failed
    | _ => Outcome.failed
  else if extOf f.name = "xml".data then
    match f.content with
    | FileData.xmlData (some x) =>
      match replace_in_xml x find repl cs with
      | some p => Outcome.success p.2 (SavedDoc.xmlOut p.1)
      | none => Outcome.failed
    | _ => Outcome.failed
  else if extOf f.name = "xpt".data then
    Outcome.success 0 (SavedDoc.rawOut (rawBytes f.content))
  else Outcome.unsupported

/-- Python dict assignment replacements_summary[filename] = count: update
the value in place when the key is present (keeping its position), append
otherwise. -/
def dictInsert (k : List Char) (v : Nat) :
    List (List Char × Nat) → List (List Char × Nat)
  | [] => [(k, v)]
  | (k2, v2) :: rest =>
    if k2 = k then (k, v) :: rest else (k2, v2) :: dictInsert k v rest

/-- The visible result of a batch run: the replacements_summary dict listed
in the final report, the filenames shown through st.error, the filenames
shown through st.warning, and the entries written to the output zip, in
order. -/
structure BatchResult where
  summary : List (List Char × Nat)
  errors : List (List Char)
  warnings : List (List Char)
  archive : List (List Char × SavedDoc)

/-- One iteration of the batch loop (src/app.py lines 107 to 134): a
success records its count in the summary dict and appends the output file
to the archive; an exception is caught, shown as an error, and the loop
continues with the next file; an unsupported extension is shown as a
warning and skipped. -/
def stepFile (find repl : List Char) (cs : Bool) (st : BatchResult)
    (f : UploadedFile) : BatchResult :=
  match processOneFile find repl cs f with
  | Outcome.success n s =>
    { st with summary := dictInsert f.name n st.summary,
              archive := st.archive ++ [(f.name, s)] }
  | Outcome.failed => { st with errors := st.errors ++ [f.name] }
  | Outcome.unsupported => { st with warnings := st.warnings ++ [f.name] }

/-- Model of the whole batch loop over the uploaded files. -/
def runBatch (find repl : List Char) (cs : Bool)
    (files : List UploadedFile) : BatchResult :=
  files.foldl (stepFile find repl cs) (BatchResult.mk [] [] [] [])

theorem runBatch_archive_aux (find repl : List Char) (cs : Bool) :
    ∀ (files : List UploadedFile) (st : BatchResult),
      (files.foldl (stepFile find repl cs) st).archive =
        st.archive ++ files.filterMap (fun f =>
          match processOneFile find repl cs f with
          | Outcome.success _ s => some (f.name, s)
          | _ => none)
  | [], st => by simp
  | f :: rest, st => by
    rw [List.foldl_cons,
      runBatch_archive_aux find repl cs rest (stepFile find repl cs st f)]
    rcases ho : processOneFile find repl cs f with ⟨n, s⟩ | _ | _
    · simp [stepFile, ho, List.filterMap_cons]
    · simp [stepFile, ho, List.filterMap_cons]
    · simp [stepFile, ho, List.filterMap_cons]

theorem runBatch_errors_aux (find repl : List Char) (cs : Bool) :
    ∀ (files : List UploadedFile) (st : BatchResult),
      (files.foldl (stepFile find repl cs) st).errors =
        st.errors ++ files.filterMap (fun f =>
          match processOneFile find repl cs f with
          | Outcome.failed => some f.name
          | _ => none)
  | [], st => by simp
  | f :: rest, st => by
    rw [List.foldl_cons,
      runBatch_errors_aux find repl cs rest (stepFile find repl cs st f)]
    rcases ho : processOneFile find repl cs f with ⟨n, s⟩ | _ | _
    · simp [stepFile, ho, List.filterMap_cons]
    · simp [stepFile, ho, List.filterMap_cons]
    · simp [stepFile, ho, List.filterMap_cons]

theorem runBatch_warnings_aux (find repl : List Char) (cs : Bool) :
    ∀ (files : List UploadedFile) (st : BatchResult),
      (files.foldl (stepFile find repl cs) st).warnings =
        st.warnings ++ files.filterMap (fun f =>
          match processOneFile find repl cs f with
          | Outcome.unsupported => some f.name
          | _ => none)
  | [], st => by simp
  | f :: rest, st => by
    rw [List.foldl_cons,
      runBatch_warnings_aux find repl cs rest (stepFile find repl cs st f)]
    rcases ho : processOneFile find repl cs f with ⟨n, s⟩ | _ | _
    · simp [stepFile, ho, List.filterMap_cons]
    · simp [stepFile, ho, List.filterMap_cons]
    · simp [stepFile, ho, List.filterMap_cons]

theorem dictInsert_fresh (k : List Char) (v : Nat) :
    ∀ d : List (List Char × Nat), (∀ e ∈ d, e.1 ≠ k) →
      dictInsert k v d = d ++ [(k, v)]
  | [], _ => rfl
  | (k2, v2) :: rest, h => by
    have hk2 : ¬ k2 = k := h (k2, v2) (List.mem_cons_self _ _)
    rw [dictInsert, if_neg hk2,
      dictInsert_fresh k v rest (fun e he => h e (List.mem_cons_of_mem _ he))]
    simp

theorem runBatch_summary_aux (find repl : List Char) (cs : Bool) :
    ∀ (files : List UploadedFile) (st : BatchResult),
      (files.map UploadedFile.name).Nodup →
      (∀ e ∈ st.summary, e.1 ∉ files.map UploadedFile.name) →
      (files.foldl (stepFile find repl cs) st).summary =
        st.summary ++ files.filterMap (fun f =>
          match processOneFile find repl cs f with
          | Outcome.success n _ => some (f.name, n)
          | _ => none)
  | [], st, _, _ => by simp
  | f :: rest, st, hnd, hdisj => by
    rw [List.foldl_cons]
    have hnd2 : (rest.map UploadedFile.name).Nodup := by
      simp only [List.map_cons, List.nodup_cons] at hnd
      exact hnd.2
    have hfn : f.name ∉ rest.map UploadedFile.name := by
      simp only [List.map_cons, List.nodup_cons] at hnd
      exact hnd.1
    have hdisj1 : ∀ e ∈ st.summary, e.1 ≠ f.name := by
      intro e he hh
      exact hdisj e he (by simp [hh])
    have hdisjr : ∀ e ∈ st.summary, e.1 ∉ rest.map UploadedFile.name := by
      intro e he hm
      exact hdisj e he (by simp [hm])
    rcases ho : processOneFile find repl cs f with ⟨n, s⟩ | _ | _
    · have hstep : (stepFile find repl cs st f).summary =
          st.summary ++ [(f.name, n)] := by
        simp only [stepFile, ho]
        exact dictInsert_fresh f.name n st.summary hdisj1
      have hdisj2 : ∀ e ∈ (stepFile find repl cs st f).summary,
          e.1 ∉ rest.map UploadedFile.name := by
        intro e he
        rw [hstep] at he
        rcases List.mem_append.1 he with h1 | h2
        · exact hdisjr e h1
        · simp only [List.mem_singleton] at h2
          rw [h2]
          exact hfn
      rw [runBatch_summary_aux find repl cs rest (stepFile find repl cs st f)
        hnd2 hdisj2, hstep]
      simp [List.filterMap_cons, ho]
    · have hstep : (stepFile find repl cs st f).summary = st.summary := by
        simp only [stepFile, ho]
      rw [runBatch_summary_aux find repl cs rest (stepFile find repl cs st f)
        hnd2 (by rw [hstep]; exact hdisjr), hstep]
      simp [List.filterMap_cons, ho]
    · have hstep : (stepFile find repl cs st f).summary = st.summary := by
        simp only [stepFile, ho]
      rw [runBatch_summary_aux find repl cs rest (stepFile find repl cs st f)
        hnd2 (by rw [hstep]; exact hdisjr), hstep]
      simp [List.filterMap_cons, ho]

/-- Claim C5, counterexample to the claim as stated. The summary is a dict
keyed by filename, so two uploaded files with the same name do not each get
a visible outcome: here two csv files named a.csv succeed with counts 1 and
0 respectively, the second overwrites the first in the summary, and the
final report shows a single visible outcome (one summary entry, no errors,
no warnings) for two input files. -/
theorem claim_C5_counterexample :
    runBatch "x".data "z".data true
      [UploadedFile.mk "a.csv".data (FileData.csvData (some (Table.mk
          [Column.mk "c".data true [Cell.str "x".data]]))),
       UploadedFile.mk "a.csv".data (FileData.csvData (some (Table.mk
          [Column.mk "c".data true [Cell.str "q".data]])))] =
      BatchResult.mk [("a.csv".data, 0)] [] []
        [("a.csv".data, SavedDoc.csvOut (Table.mk
            [Column.mk "c".data true [Cell.str "z".data]])),
         ("a.csv".data, SavedDoc.csvOut (Table.mk
            [Column.mk "c".data true [Cell.str "q".data]]))] ∧
    (runBatch "x".data "z".data true
      [UploadedFile.mk "a.csv".data (FileData.csvData (some (Table.mk
          [Column.mk "c".data true [Cell.str "x".data]]))),
       UploadedFile.mk "a.csv".data (FileData.csvData (some (Table.mk
          [Column.mk "c".data true [Cell.str "q".data]])))]).summary.length = 1 :=
  ⟨rfl, rfl⟩

/-- Claim C5, amended: provided the uploaded filenames are pairwise
distinct, every input file yields exactly one outcome, determined by that
file alone - a summary entry with its own count on success, an error
message on failure, a warning when its extension is unsupported - and the
three visible report components are exactly the per-file outcomes in input
order, so a failure of one file never changes another file's outcome or
aborts the remaining queue. With duplicate filenames a later file's summary
entry overwrites an earlier one's. -/
theorem claim_C5_amended (find repl : List Char) (cs : Bool)
    (files : List UploadedFile)
    (hnd : (files.map UploadedFile.name).Nodup) :
    (runBatch find repl cs files).summary =
      files.filterMap (fun f =>
        match processOneFile find repl cs f with
        | Outcome.success n _ => some (f.name, n)
        | _ => none) ∧
    (runBatch find repl cs files).errors =
      files.filterMap (fun f =>
        match processOneFile find repl cs f with
        | Outcome.failed => some f.name
        | _ => none) ∧
    (runBatch find repl cs files).warnings =
      files.filterMap (fun f =>
        match processOneFile find repl cs f with
        | Outcome.unsupported => some f.name
        | _ => none) := by
  refine ⟨?_, ?_, ?_⟩
  · rw [runBatch, runBatch_summary_aux find repl cs files
      (BatchResult.mk [] [] [] []) hnd (by intro e he; simp at he)]
    rfl
  · rw [runBatch, runBatch_errors_aux find repl cs files
      (BatchResult.mk [] [] [] [])]
    rfl
  · rw [runBatch, runBatch_warnings_aux find repl cs files
      (BatchResult.mk [] [] [] [])]
    rfl

theorem claim_C5_witness :
    (runBatch "x".data "y".data true
      [UploadedFile.mk "a.csv".data (FileData.csvData (some (Table.mk
          [Column.mk "c".data true [Cell.str "x".data]]))),
       UploadedFile.mk "b.pdf".data (FileData.pdfData none),
       UploadedFile.mk "c.txt".data (FileData.binData [9])]).summary =
      [UploadedFile.mk "a.csv".data (FileData.csvData (some (Table.mk
          [Column.mk "c".data true [Cell.str "x".data]]))),
       UploadedFile.mk "b.pdf".data (FileData.pdfData none),
       UploadedFile.mk "c.txt".data (FileData.binData [9])].filterMap (fun f =>
        match processOneFile "x".data "y".data true f with
        | Outcome.success n _ => some (f.name, n)
        | _ => none) ∧
    (runBatch "x".data "y".data true
      [UploadedFile.mk "a.csv".data (FileData.csvData (some (Table.mk
          [Column.mk "c".data true [Cell.str "x".data]]))),
       UploadedFile.mk "b.pdf".data (FileData.pdfData none),
       UploadedFile.mk "c.txt".data (FileData.binData [9])]).errors =
      [UploadedFile.mk "a.csv".data (FileData.csvData (some (Table.mk
          [Column.mk "c".data true [Cell.str "x".data]]))),
       UploadedFile.mk "b.pdf".data (FileData.pdfData none),
       UploadedFile.mk "c.txt".data (FileData.binData [9])].filterMap (fun f =>
        match processOneFile "x".data "y".data true f with
        | Outcome.failed => some f.name
        | _ => none) ∧
    (runBatch "x".data "y".data true
      [UploadedFile.mk "a.csv".data (FileData.csvData (some (Table.mk
          [Column.mk "c".data true [Cell.str "x".data]]))),
       UploadedFile.mk "b.pdf".data (FileData.pdfData none),
       UploadedFile.mk "c.txt".data (FileData.binData [9])]).warnings =
      [UploadedFile.mk "a.csv".data (FileData.csvData (some (Table.mk
          [Column.mk "c".data true [Cell.str "x".data]]))),
       UploadedFile.mk "b.pdf".data (FileData.pdfData none),
       UploadedFile.mk "c.txt".data (FileData.binData [9])].filterMap (fun f =>
        match processOneFile "x".data "y".data true f with
        | Outcome.unsupported => some f.name
        | _ => none) :=
  claim_C5_amended "x".data "y".data true
    [UploadedFile.mk "a.csv".data (FileData.csvData (some (Table.mk
        [Column.mk "c".data true [Cell.str "x".data]]))),
     UploadedFile.mk "b.pdf".data (FileData.pdfData none),
     UploadedFile.mk "c.txt".data (FileData.binData [9])] (by decide)

/-- Claim C6: a file whose processing fails never contributes to the
archive - the archive is exactly the successfully processed files' outputs
in input order - and on the three-file scenario with a corrupted PDF in the
middle the summary holds success entries for files 1 and 3, the error list
holds file 2, and the archive holds exactly the two successful files. -/
theorem claim_C6 :
    (∀ (find repl : List Char) (cs : Bool) (files : List UploadedFile),
      (runBatch find repl cs files).archive =
        files.filterMap (fun f =>
          match processOneFile find repl cs f with
          | Outcome.success _ s => some (f.name, s)
          | _ => none)) ∧
    runBatch "x".data "y".data true
      [UploadedFile.mk "f1.xpt".data (FileData.binData [1]),
       UploadedFile.mk "f2.pdf".data (FileData.pdfData none),
       UploadedFile.mk "f3.xpt".data (FileData.binData [2, 3])] =
      BatchResult.mk [("f1.xpt".data, 0), ("f3.xpt".data, 0)]
        ["f2.pdf".data] []
        [("f1.xpt".data, SavedDoc.rawOut [1]),
         ("f3.xpt".data, SavedDoc.rawOut [2, 3])] := by
  constructor
  · intro find repl cs files
    rw [runBatch, runBatch_archive_aux find repl cs files
      (BatchResult.mk [] [] [] [])]
    rfl
  · rfl

/-- Claim C7: an opaque-format (xpt) input is treated as a success with
occurrence count 0, its saved output is byte-for-byte the input stream, and
in any batch containing it that byte-identical output is placed in the
archive. -/
theorem claim_C7 (find repl : List Char) (cs : Bool) (name : List Char)
    (bs : List Nat) (files : List UploadedFile)
    (hext : extOf name = "xpt".data) :
    processOneFile find repl cs (UploadedFile.mk name (FileData.binData bs)) =
      Outcome.success 0 (SavedDoc.rawOut bs) ∧
    (UploadedFile.mk name (FileData.binData bs) ∈ files →
      (name, SavedDoc.rawOut bs) ∈ (runBatch find repl cs files).archive) := by
  have hsucc : processOneFile find repl cs
      (UploadedFile.mk name (FileData.binData bs)) =
      Outcome.success 0 (SavedDoc.rawOut bs) := by
    rw [processOneFile]
    simp [hext, rawBytes]
  refine ⟨hsucc, fun hmem => ?_⟩
  rw [runBatch, runBatch_archive_aux find repl cs files
    (BatchResult.mk [] [] [] [])]
  simp only [List.nil_append]
  exact List.mem_filterMap.2
    ⟨UploadedFile.mk name (FileData.binData bs), hmem, by rw [hsucc]⟩

theorem claim_C7_witness :
    processOneFile "a".data "b".data true
      (UploadedFile.mk "d.xpt".data (FileData.binData [7])) =
      Outcome.success 0 (SavedDoc.rawOut [7]) ∧
    ("d.xpt".data, SavedDoc.rawOut [7]) ∈
      (runBatch "a".data "b".data true
        [UploadedFile.mk "d.xpt".data (FileData.binData [7])]).archive := by
  have h := claim_C7 "a".data "b".data true "d.xpt".data [7]
    [UploadedFile.mk "d.xpt".data (FileData.binData [7])] rfl
  exact ⟨h.1, h.2 (List.mem_singleton_self _)⟩
